import Mathlib

/-!
Verification of the liquid template engine's value comparison code
(src/values/compare.go) and of the standard filter library described by the
specification, against the test table in src/unnamed/part_000.

Conventions of the embedding:
* Go dynamic values that can reach `Equal`/`Less` in this repository are
  modelled by the inductive type `Value`.  All Go signed-integer kinds are
  collapsed into a single mathematical `Int` (the Go code converts every
  int kind to int64 before comparing, so this is faithful by value).
* Go `float64` is modelled as an exact rational (`ℚ`).  Every float literal
  exercised by the claims (2.99, 4.99, 10.5, 20.5, 100.01, ...) denotes a
  value for which comparison, min/max, and zero tests in binary64 agree
  with the exact rational operations used here.
* `time.Time` is modelled by its instant (an integer timestamp); `date.Date`
  by its underlying integer day number.  Note that in Go `date.Date`'s
  reflect kind is an integer kind, which the embedding reproduces via `kind`.
* `ParseDate` and `date.NewFromUTCTime` are code of this repository that is
  not under src/, so they appear as parameters (`p : String → Option Int`
  for parsing a string to an instant, `c : Int → Int` for converting an
  instant to a date number).  The phone type and host-object pointers are
  omitted: no claim mentions them and they interact with no claim's branch.
* `ToLiquid` (also outside src/) normalises host values into the dynamic
  value space; its action on values already in that space is the identity,
  which is how it is modelled here.
-/

namespace Liquid

/-- The dynamic value space reachable by the comparison code. -/
inductive Value : Type
  | VNil : Value
  | VBool (b : Bool) : Value
  | VInt (n : Int) : Value
  | VFloat (q : ℚ) : Value
  | VStr (s : String) : Value
  | VTime (instant : Int) : Value
  | VDate (d : Int) : Value
  | VArr (l : List Value) : Value
  | VMap (m : List (String × Value)) : Value

/-- Reflect kinds, as coarse as the embedding needs them. -/
inductive Kind : Type
  | invalid | kBool | kInt64 | kFloat64 | kString | kSlice | kMap | kStruct
deriving DecidableEq

/-- The reflect kind of a (non-nil) value.  `date.Date` has an integer
underlying type in Go, so its kind is the integer kind. -/
def kind : Value → Kind
  | .VNil => .invalid
  | .VBool _ => .kBool
  | .VInt _ => .kInt64
  | .VFloat _ => .kFloat64
  | .VStr _ => .kString
  | .VTime _ => .kStruct
  | .VDate _ => .kInt64
  | .VArr _ => .kSlice
  | .VMap _ => .kMap

/-- `joinKind` from src/values/compare.go.  The Go version distinguishes the
several int and float widths; the embedding has a single kind for each, so
the int/float promotion rows are the only mixed cases that survive. -/
def joinKind (a b : Kind) : Kind :=
  if a = b then a
  else
    match a, b with
    | .kInt64, .kFloat64 => .kFloat64
    | .kFloat64, .kInt64 => .kFloat64
    | _, _ => .invalid

/-- `ra.Convert(int64Type).Int()` for values of integer kind. -/
def asInt : Value → Int
  | .VInt n => n
  | .VDate d => d
  | _ => 0

/-- `ra.Convert(float64Type).Float()` for values of numeric kind. -/
def asFloat : Value → ℚ
  | .VInt n => (n : ℚ)
  | .VDate d => (d : ℚ)
  | .VFloat q => q
  | _ => 0

/-- `ra.Bool()` for values of bool kind. -/
def boolVal : Value → Bool
  | .VBool b => b
  | _ => false

/-- `ra.String()` for values of string kind. -/
def strVal : Value → String
  | .VStr s => s
  | _ => ""

/-- The final `switch joinKind(...)` of `Less` (src/values/compare.go lines
152-163): bool compares false-before-true, numeric kinds compare after
conversion, strings compare bytewise (bytewise UTF-8 order coincides with
the code-point order used by Lean's `String` order), default is false. -/
def lessSwitch (a b : Value) : Bool :=
  match joinKind (kind a) (kind b) with
  | .kBool => !(boolVal a) && boolVal b
  | .kInt64 => decide (asInt a < asInt b)
  | .kFloat64 => decide (asFloat a < asFloat b)
  | .kString => decide (strVal a < strVal b)
  | _ => false

/-- `Less` from src/values/compare.go (lines 76-164), with `p` standing for
`ParseDate` (string to instant) and `c` for `date.NewFromUTCTime` (instant
to date number).  The nil branches, the two time branches, the two
`date.Date`-versus-string branches and the final kind switch follow the Go
control flow; a branch whose parse fails falls through to the switch
exactly as the Go code does. -/
def Less (p : String → Option Int) (c : Int → Int) (a b : Value) : Bool :=
  match a, b with
  | .VNil, .VNil => false
  | .VNil, b =>
    match b with
    | .VStr s => decide ("" < s)
    | .VInt n => decide (0 < n)
    | .VDate d => decide (0 < d)
    | .VFloat q => decide (0 < q)
    | _ => false
  | a, .VNil =>
    match a with
    | .VStr s => decide (s < "")
    | .VInt n => decide (n < 0)
    | .VDate d => decide (d < 0)
    | .VFloat q => decide (q < 0)
    | _ => false
  | .VTime t, .VStr s =>
    match p s with
    | some u => decide (t < u)
    | none => lessSwitch (.VTime t) (.VStr s)
  | .VTime t, .VTime u => decide (t < u)
  | .VStr s, .VTime u =>
    match p s with
    | some v => decide (v < u)
    | none => lessSwitch (.VStr s) (.VTime u)
  | .VDate d, .VStr s =>
    match p s with
    | some u => decide (d < c u)
    | none => lessSwitch (.VDate d) (.VStr s)
  | .VStr s, .VDate d =>
    match p s with
    | some u => decide (c u < d)
    | none => lessSwitch (.VStr s) (.VDate d)
  | a, b => lessSwitch a b

/-- The final `switch joinKind(...)` of `Equal` (src/values/compare.go lines
46-72) restricted to the scalar kinds: bool, numeric (after conversion) and
string compare by value; every other join — including the `default` branch,
where Go falls back to interface equality between values of what are here
always distinct dynamic types — yields false. -/
def eqSwitch (a b : Value) : Bool :=
  match joinKind (kind a) (kind b) with
  | .kBool => boolVal a == boolVal b
  | .kInt64 => decide (asInt a = asInt b)
  | .kFloat64 => decide (asFloat a = asFloat b)
  | .kString => decide (strVal a = strVal b)
  | _ => false

/-- `Equal` from src/values/compare.go (lines 17-73), with `p` standing for
`ParseDate`.  The time branch fires only when the LEFT operand is a
`time.Time`: a string on the left with a time on the right reaches the
final switch, whose joined kind is invalid, and falls to the cross-type
interface-equality default (false).  Arrays compare elementwise after a
length check, modelled by the paired structural recursion below. -/
def Equal (p : String → Option Int) : Value → Value → Bool
  | .VNil, .VNil => true
  | .VNil, _ => false
  | _, .VNil => false
  | .VTime t, .VStr s =>
    match p s with
    | some u => decide (t = u)
    | none => false
  | .VTime t, .VTime u => decide (t = u)
  | .VArr [], .VArr [] => true
  | .VArr (x :: xs), .VArr (y :: ys) => Equal p x y && Equal p (.VArr xs) (.VArr ys)
  | .VArr _, .VArr _ => false
  | a, b => eqSwitch a b

end Liquid

namespace Liquid

/-!
The standard filter library.  The filter implementations are code of this
repository that is not under src/ — src/ holds only their test table
(src/unnamed/part_000) — so, per the specification, each filter below is
modelled from the spec (§4.1, §4.5), and checked for consistency with the
test table where the table decides a case.
-/

/-- A value viewed as a number: either an integer or a float.  Floats are
modelled as exact rationals (see the header note). -/
inductive Num : Type
  | int (n : Int) : Num
  | float (q : ℚ) : Num
deriving DecidableEq

/-- The numeric magnitude of a viewed number. -/
def numToQ : Num → ℚ
  | .int n => (n : ℚ)
  | .float q => q

/-- Whether a viewed number is a float. -/
def numIsFloat : Num → Bool
  | .int _ => false
  | .float _ => true

/-- Negation of a viewed number. -/
def numNeg : Num → Num
  | .int n => .int (-n)
  | .float q => .float (-q)

/-- Whether a viewed number is zero. -/
def numIsZero : Num → Bool
  | .int n => decide (n = 0)
  | .float q => decide (q = 0)

/-!
Lean's own `String.splitOn`, `String.toNat?` and `toString` on numbers do
not reduce inside the kernel, so the string primitives the filters need
are implemented here over `String.data` character lists, keeping every
definition evaluable on concrete inputs.
-/

/-- Whether the first list is a prefix of the second (bytewise; code-point
lists and UTF-8 byte strings agree on prefixes). -/
def isPrefixL : List Char → List Char → Bool
  | [], _ => true
  | _ :: _, [] => false
  | a :: as, b :: bs => a == b && isPrefixL as bs

/-- Fuel-driven worker for `splitOnL`; the separator is nonempty, and each
step consumes one unit of fuel and at least one character, so fuel equal
to the length of the list suffices. -/
def splitOnFuel (sep : List Char) : Nat → List Char → List (List Char)
  | _, [] => [[]]
  | 0, l => [l]
  | fuel + 1, c :: rest =>
    if isPrefixL sep (c :: rest) then
      [] :: splitOnFuel sep fuel (List.drop (sep.length - 1) rest)
    else
      match splitOnFuel sep fuel rest with
      | [] => [[c]]
      | a :: seg => (c :: a) :: seg

/-- Go's `strings.Split` over character lists: greedy left-to-right cuts
at each occurrence of the separator; the empty separator explodes the
string into its characters. -/
def splitOnL (sep l : List Char) : List (List Char) :=
  if sep.isEmpty then l.map (fun ch => [ch]) else splitOnFuel sep l.length l

/-- Go's `strings.Split` on strings. -/
def strSplitOn (s sep : String) : List String :=
  (splitOnL sep.data s.data).map String.mk

/-- Accumulate a digit string into a number; any non-digit fails. -/
def natOfDigitsAux : List Char → Nat → Option Nat
  | [], acc => some acc
  | c :: rest, acc =>
    if 48 ≤ c.toNat && c.toNat ≤ 57 then
      natOfDigitsAux rest (acc * 10 + (c.toNat - 48))
    else none

/-- A nonempty all-digit character list as a number. -/
def natOfDigits : List Char → Option Nat
  | [] => none
  | l => natOfDigitsAux l 0

/-- Modelled from the spec (§4.1 numeric coercion): parse an unsigned
numeric literal — digits, then an optional nonempty fractional part.
Digits alone view as Int; a fractional part makes the result a Float. -/
def parseUnsigned (l : List Char) : Option Num :=
  match splitOnL ['.'] l with
  | [w] => (natOfDigits w).map (fun n => Num.int (n : Int))
  | [w, f] =>
    match natOfDigits w, natOfDigits f with
    | some a, some b => some (.float ((a : ℚ) + (b : ℚ) / ((10 : ℚ) ^ f.length)))
    | _, _ => none
  | _ => none

/-- Modelled from the spec (§4.1): a numeric string literal — optional
sign, digits, optional fractional part. -/
def parseNumStr (s : String) : Option Num :=
  match s.data with
  | [] => none
  | c :: rest =>
    if c = '-' then (parseUnsigned rest).map numNeg
    else if c = '+' then parseUnsigned rest
    else parseUnsigned (c :: rest)

/-- Modelled from the spec (§4.1): a Value can be viewed as a number when
it is an Int, a Float, or a String that parses as a numeric literal. -/
def viewAsNumber : Value → Option Num
  | .VInt n => some (.int n)
  | .VFloat q => some (.float q)
  | .VStr s => parseNumStr s
  | _ => none

/-- Modelled from the spec (§4.1 emptiness): a Value is empty iff it is
`Nil`, `false`, the empty string, the empty array, or the empty map. -/
def isEmptyValue : Value → Bool
  | .VNil => true
  | .VBool b => !b
  | .VStr s => s.isEmpty
  | .VArr l => l.isEmpty
  | .VMap m => m.isEmpty
  | _ => false

/-- Modelled from the spec (§4.5): `default(x, d)` returns `d` if `x` is
empty, else `x`. -/
def defaultFilter (x d : Value) : Value :=
  if isEmptyValue x then d else x

/-- Whitespace in the sense of Go's `strings.Fields`, restricted to the
ASCII whitespace the test table exercises. -/
def isSpaceChar (c : Char) : Bool :=
  c = ' ' || c = '\t' || c = '\n' || c = '\r'

/-- Worker for `fields`: the accumulator holds the current word reversed. -/
def fieldsAux : List Char → List Char → List String
  | [], acc => if acc.isEmpty then [] else [String.mk acc.reverse]
  | c :: rest, acc =>
    if isSpaceChar c then
      if acc.isEmpty then fieldsAux rest []
      else String.mk acc.reverse :: fieldsAux rest []
    else fieldsAux rest (c :: acc)

/-- Go's `strings.Fields` / Ruby's awk-style split: the maximal nonempty
segments between runs of whitespace. -/
def fields (s : String) : List String :=
  fieldsAux s.data []

/-- The Go trailing-empties loop of the split filter: repeatedly drop the
last segment while it is the empty string. -/
def removeTrailingEmpties (l : List String) : List String :=
  (l.reverse.dropWhile fun x => x.isEmpty).reverse

/-- Modelled from the spec (§4.5 `split`): split on the separator and drop
every trailing empty segment, keeping empty segments elsewhere.  The test
table (src/unnamed/part_000 lines 122-124: splitting `"a  b"` and
`"a \t b"` on `" "` both give `["a", "b"]`) additionally fixes Ruby's
awk-style behavior for the single-space separator, which splits on
whitespace runs and keeps no empty segments at all. -/
def splitFilter (s sep : String) : List String :=
  if sep = " " then fields s
  else removeTrailingEmpties (strSplitOn s sep)

/-- Modelled from the spec (§4.1, §4.5 `divided_by`): both operands must
view as numbers and the divisor must be nonzero, else `Nil`; two Ints
divide by truncated (toward-zero) integer division, any Float makes the
division a float division. -/
def dividedBy (a b : Value) : Value :=
  match viewAsNumber a, viewAsNumber b with
  | some x, some y =>
    if numIsZero y then .VNil
    else
      match x, y with
      | .int m, .int n => .VInt (Int.tdiv m n)
      | _, _ => .VFloat (numToQ x / numToQ y)
  | _, _ => .VNil

/-- The numeric maximum of two viewed numbers, a float when either side is
a float and an Int otherwise (spec §4.5 `at_least`, §9 design note). -/
def maxNum (a b : Num) : Value :=
  match a, b with
  | .int m, .int n => .VInt (max m n)
  | _, _ => .VFloat (max (numToQ a) (numToQ b))

/-- The numeric minimum, symmetric to `maxNum`. -/
def minNum (a b : Num) : Value :=
  match a, b with
  | .int m, .int n => .VInt (min m n)
  | _, _ => .VFloat (min (numToQ a) (numToQ b))

/-- Whether a value is the empty string. -/
def isEmptyStr : Value → Bool
  | .VStr s => s.isEmpty
  | _ => false

/-- Modelled from the spec (§4.5 `at_least`): if both inputs view as
numbers, their maximum (float-ness preserved); otherwise the input that is
the empty string, unchanged, when present. -/
def atLeast (x y : Value) : Value :=
  match viewAsNumber x, viewAsNumber y with
  | some a, some b => maxNum a b
  | _, _ => if isEmptyStr x then x else if isEmptyStr y then y else .VNil

/-- Modelled from the spec (§4.5 `at_most`): symmetric to `atLeast` with
the minimum. -/
def atMost (x y : Value) : Value :=
  match viewAsNumber x, viewAsNumber y with
  | some a, some b => minNum a b
  | _, _ => if isEmptyStr x then x else if isEmptyStr y then y else .VNil

/-- Digits of a positive number, most significant first (fuel-driven so
that it evaluates inside the kernel). -/
def natToDigitsAux : Nat → Nat → List Char
  | 0, _ => []
  | fuel + 1, n =>
    if n = 0 then [] else natToDigitsAux fuel (n / 10) ++ [Char.ofNat (48 + n % 10)]

/-- Decimal representation of a natural number. -/
def natRepr (n : Nat) : String :=
  if n = 0 then "0" else String.mk (natToDigitsAux (n + 1) n)

/-- Decimal representation of an integer (Go's canonical integer
stringification). -/
def intRepr (i : Int) : String :=
  if i < 0 then "-" ++ natRepr (-i).toNat else natRepr i.toNat

/-- Left-pad a digit string with zeros to width `k` (for the fractional
part of a canonical float representation). -/
def padZeros (s : String) (k : Nat) : String :=
  "".pushn '0' (k - s.length) ++ s

/-- The least power of ten (up to 10^20) that the denominator divides. -/
def findPow10 (den : Nat) : Option Nat :=
  (List.range 21).find? fun k => 10 ^ k % den = 0

/-- Canonical decimal representation of a nonnegative float value (spec
§4.5 Hash: floats stringify minimally, e.g. `100.01`). -/
def floatReprNN (q : ℚ) : String :=
  if q.den = 1 then intRepr q.num
  else
    match findPow10 q.den with
    | some k =>
      let scaled : Nat := q.num.toNat * (10 ^ k / q.den)
      natRepr (scaled / 10 ^ k) ++ "." ++ padZeros (natRepr (scaled % 10 ^ k)) k
    | none => intRepr q.num ++ "/" ++ natRepr q.den

/-- Canonical decimal representation of a float value. -/
def floatRepr (q : ℚ) : String :=
  if q < 0 then "-" ++ floatReprNN (-q) else floatReprNN q

/-- Modelled from the spec (§4.5 Hash): the stringification a hash filter
applies to its input — strings pass through, integers print without a
decimal point, floats print canonically. -/
def hashStr : Value → String
  | .VStr s => s
  | .VInt n => intRepr n
  | .VFloat q => floatRepr q
  | _ => ""

/-- Modelled from the spec (§4.5 Hash): `md5`/`sha1`/`sha256` with digest
function `digest` (the actual digests live outside src/): an input whose
stringification is empty yields the empty string — not the digest of the
empty string — and any other input yields the hex digest of its
stringification. -/
def hashFilter (digest : String → String) (v : Value) : Value :=
  let s := hashStr v
  if s.isEmpty then .VStr "" else .VStr (digest s)

/-- Modelled from the spec (§4.5 HMAC): an acceptable key is a string, an
integer, or a float, stringified canonically; anything else (in
particular a boolean) is rejected. -/
def keyRepr : Value → Option String
  | .VStr s => some s
  | .VInt n => some (intRepr n)
  | .VFloat q => some (floatRepr q)
  | _ => none

/-- Modelled from the spec (§4.5 HMAC): `hmac`/`hmac_sha1`/`hmac_sha256`
with MAC function `mac message key`.  A non-string/integer/float key, an
empty message, or an empty key yields the empty string; otherwise the hex
MAC of the stringified message under the stringified key. -/
def hmacFilter (mac : String → String → String) (v k : Value) : Value :=
  match keyRepr k with
  | none => .VStr ""
  | some ks =>
    let m := hashStr v
    if m.isEmpty || ks.isEmpty then .VStr "" else .VStr (mac m ks)

/-- Modelled from the spec (§4.5 Date): `date(x, fmt?)` formats a Time (via
`ft`), a Date (via `fd`), or a string that parses as a date/time; every
other input — including `Nil` from a missing binding and an unparseable
string — yields the empty string, and the filter is total, so evaluation
never fails. -/
def dateFilter (p : String → Option Int) (ft : Int → String) (fd : Int → String) :
    Value → String
  | .VTime t => ft t
  | .VDate d => fd d
  | .VStr s =>
    match p s with
    | some t => ft t
    | none => ""
  | _ => ""

/-- Modelled from the spec (§4.5 `reverse`): reverse the sequence; a
non-array input passes through unchanged. -/
def reverseFilter : Value → Value
  | .VArr l => .VArr l.reverse
  | v => v

end Liquid

namespace Liquid

/-- Claim C2: between `Nil` and a value of kind String, Int or Float,
`Less` treats `Nil` as that kind's zero: `Less(Nil, v)` is true exactly
when the zero (`""`, `0`, `0.0`) is less than `v`, and `Less(v, Nil)` is
true exactly when `v` is less than that zero. -/
theorem less_nil_zero_C2 (p : String → Option Int) (c : Int → Int)
    (s : String) (n : Int) (q : ℚ) :
    Less p c .VNil (.VStr s) = decide ("" < s) ∧
    Less p c (.VStr s) .VNil = decide (s < "") ∧
    Less p c .VNil (.VInt n) = decide (0 < n) ∧
    Less p c (.VInt n) .VNil = decide (n < 0) ∧
    Less p c .VNil (.VFloat q) = decide (0 < q) ∧
    Less p c (.VFloat q) .VNil = decide (q < 0) :=
  ⟨rfl, rfl, rfl, rfl, rfl, rfl⟩

/-- Claim C10: `Nil` is never ordered against a boolean — `Less(Nil, b)` and
`Less(b, Nil)` are both false for every Bool `b` — even though between two
Bools `false < true` holds. -/
theorem less_nil_bool_C10 (p : String → Option Int) (c : Int → Int) (b : Bool) :
    Less p c .VNil (.VBool b) = false ∧
    Less p c (.VBool b) .VNil = false ∧
    Less p c (.VBool false) (.VBool true) = true :=
  ⟨rfl, rfl, rfl⟩

/-- Claim C1, counterexample: with a parse function under which the string
parses to instant 0, equal to the instant of the Time operand, the claim
predicts `Equal(s, t) = true`; the code returns false, because the time
branch of `Equal` fires only when the Time is the LEFT operand. -/
theorem equal_time_counterexample_C1 :
    ((fun _ : String => some (0 : Int)) "2015-07-17" = some (0 : Int)) ∧
    Equal (fun _ : String => some (0 : Int))
      (Value.VStr "2015-07-17") (Value.VTime 0) = false :=
  ⟨rfl, by simp [Equal, eqSwitch, joinKind, kind]⟩

/-- Claim C1, amended: with the Time on the left, `Equal(t, s)` compares
instants (and is false when `s` does not parse), and Time-Time comparison
is instant equality; but with the string on the left, `Equal(s, t)` is
always false, whether or not `s` parses to the same instant. -/
theorem equal_time_amended_C1 (p : String → Option Int) (t u : Int) (s : String) :
    (p s = some u → Equal p (.VTime t) (.VStr s) = decide (t = u)) ∧
    (p s = none → Equal p (.VTime t) (.VStr s) = false) ∧
    Equal p (.VTime t) (.VTime u) = decide (t = u) ∧
    Equal p (.VStr s) (.VTime t) = false := by
  refine ⟨fun h => ?_, fun h => ?_, ?_, ?_⟩
  · simp [Equal, h]
  · simp [Equal, h]
  · simp [Equal]
  · simp [Equal, eqSwitch, joinKind, kind]

/-- Witness for C1's amended theorem at a concrete parse function, Time and
string. -/
theorem equal_time_amended_witness_C1 :
    Equal (fun _ : String => some (5 : Int)) (Value.VTime 5) (Value.VStr "d")
      = decide ((5 : Int) = 5) :=
  (equal_time_amended_C1 (fun _ : String => some (5 : Int)) 5 5 "d").1 rfl

/-- Claim C3: `default(x, d)` returns `d` exactly when `x` is empty — `Nil`,
`false`, the empty string, the empty array, or the empty map — and returns
`x` unchanged otherwise; in particular the non-empty falsey-looking values
`"true"` and any float pass through unchanged. -/
theorem default_empty_C3 :
    (∀ x d : Value,
      (x = .VNil ∨ x = .VBool false ∨ x = .VStr "" ∨ x = .VArr [] ∨ x = .VMap []) →
      defaultFilter x d = d) ∧
    (∀ x d : Value,
      ¬(x = .VNil ∨ x = .VBool false ∨ x = .VStr "" ∨ x = .VArr [] ∨ x = .VMap []) →
      defaultFilter x d = x) ∧
    (∀ d : Value, defaultFilter (.VStr "true") d = .VStr "true") ∧
    (∀ d : Value, ∀ q : ℚ, defaultFilter (.VFloat q) d = .VFloat q) := by
  refine ⟨?_, ?_, fun d => rfl, fun d q => rfl⟩
  · rintro x d (rfl | rfl | rfl | rfl | rfl) <;> rfl
  · rintro x d h
    match x with
    | .VNil => exact absurd (Or.inl rfl) h
    | .VBool true => rfl
    | .VBool false => exact absurd (Or.inr (Or.inl rfl)) h
    | .VInt n => rfl
    | .VFloat q => rfl
    | .VTime t => rfl
    | .VDate d0 => rfl
    | .VStr s =>
      have hs : s ≠ "" := fun e => h (Or.inr (Or.inr (Or.inl (by rw [e]))))
      simp [defaultFilter, isEmptyValue, String.isEmpty_iff, hs]
    | .VArr l =>
      have hl : l ≠ [] := fun e => h (Or.inr (Or.inr (Or.inr (Or.inl (by rw [e])))))
      simp [defaultFilter, isEmptyValue, hl]
    | .VMap m =>
      have hm : m ≠ [] := fun e => h (Or.inr (Or.inr (Or.inr (Or.inr (by rw [e])))))
      simp [defaultFilter, isEmptyValue, hm]

/-- Witness for C3 at concrete empty and non-empty inputs. -/
theorem default_empty_witness_C3 :
    defaultFilter Value.VNil (Value.VStr "d") = Value.VStr "d" ∧
    defaultFilter (Value.VStr "true") (Value.VStr "d") = Value.VStr "true" :=
  ⟨default_empty_C3.1 Value.VNil (Value.VStr "d") (Or.inl rfl),
   default_empty_C3.2.1 (Value.VStr "true") (Value.VStr "d") (by simp)⟩

/-- The first element surviving `dropWhile isEmpty` is not empty. -/
theorem head?_dropWhile_isEmpty (l : List String) :
    ∀ x, (l.dropWhile fun t => t.isEmpty).head? = some x → x.isEmpty = false := by
  induction l with
  | nil => intro x h; simp [List.dropWhile] at h
  | cons a l ih =>
    intro x h
    cases ha : a.isEmpty with
    | true => rw [List.dropWhile_cons_of_pos ha] at h; exact ih x h
    | false =>
      rw [List.dropWhile_cons_of_neg (by simp [ha])] at h
      simp only [List.head?_cons, Option.some.injEq] at h
      rw [← h]; exact ha

/-- The Go trailing-empties loop only removes a (possibly empty) trailing
block of empty segments: the original list is the trimmed list followed by
that block. -/
theorem removeTrailingEmpties_decomp (l : List String) :
    ∃ k, l = removeTrailingEmpties l ++ List.replicate k "" := by
  refine ⟨(l.reverse.takeWhile fun t => t.isEmpty).length, ?_⟩
  conv_lhs =>
    rw [← l.reverse_reverse,
      ← List.takeWhile_append_dropWhile (p := fun t => t.isEmpty) (l := l.reverse)]
  rw [List.reverse_append, removeTrailingEmpties]
  congr 1
  have h : ∀ x ∈ l.reverse.takeWhile (fun t => t.isEmpty), x = "" := by
    intro x hx
    have := List.mem_takeWhile_imp hx
    simpa [String.isEmpty_iff] using this
  conv_lhs => rw [List.eq_replicate_of_mem h]
  rw [List.reverse_replicate]

/-- The trimmed list never ends with an empty segment. -/
theorem removeTrailingEmpties_getLast (l : List String) :
    (removeTrailingEmpties l).getLast? ≠ some "" := by
  rw [removeTrailingEmpties, List.getLast?_reverse]
  intro h
  have := head?_dropWhile_isEmpty l.reverse "" h
  exact absurd this (by decide)

/-- Claim C4, counterexample: for the single-space separator the claim's
prediction — separator-delimited segments with trailing empties removed —
on `"a  b"` is `["a", "", "b"]`, but the filter (per the test table rows
for `' '`) splits on whitespace runs and returns `["a", "b"]`. -/
theorem split_counterexample_C4 :
    removeTrailingEmpties (strSplitOn "a  b" " ") = ["a", "", "b"] ∧
    splitFilter "a  b" " " = ["a", "b"] :=
  ⟨by decide, by decide⟩

/-- Claim C4 (amended): for every separator other than the single space
`" "` — for which the filter instead splits on whitespace runs, keeping no
empty segments at all — `split` produces the separator-delimited segments
of the string with every trailing empty segment removed and all other
(middle or leading) empty segments kept: the raw segments are the result
followed by a block of empties, and the result never ends with an empty
segment; splitting `"a//c"` on `"/"` gives `["a", "", "c"]`, `"a//"` gives
`["a"]`, and `"//"` gives the empty array. -/
theorem split_amended_C4 :
    (∀ s sep : String, sep ≠ " " →
      (∃ k, strSplitOn s sep = splitFilter s sep ++ List.replicate k "") ∧
      (splitFilter s sep).getLast? ≠ some "") ∧
    splitFilter "a//c" "/" = ["a", "", "c"] ∧
    splitFilter "a//" "/" = ["a"] ∧
    splitFilter "//" "/" = [] := by
  refine ⟨fun s sep h => ?_, by decide, by decide, by decide⟩
  have hs : splitFilter s sep = removeTrailingEmpties (strSplitOn s sep) := by
    simp [splitFilter, h]
  rw [hs]
  exact ⟨removeTrailingEmpties_decomp _, removeTrailingEmpties_getLast _⟩

/-- Witness for C4's amended theorem at a concrete string and separator. -/
theorem split_amended_witness_C4 :
    ∃ k, strSplitOn "a/b/" "/" = splitFilter "a/b/" "/" ++ List.replicate k "" :=
  (split_amended_C4.1 "a/b/" "/" (by decide)).1

/-- Claim C5: with both operands viewing as numbers, `divided_by` yields
`Nil` on a zero divisor and the truncated integer quotient when both are
Int; a non-numeric divisor (such as the string `"s"`) also yields `Nil`
rather than an error. -/
theorem divided_by_C5 :
    (∀ a b : Value, ∀ x y : Int,
      viewAsNumber a = some (.int x) → viewAsNumber b = some (.int y) →
      dividedBy a b = if y = 0 then Value.VNil else Value.VInt (Int.tdiv x y)) ∧
    (∀ a b : Value, ∀ n : Num, viewAsNumber b = some n → numIsZero n = true →
      dividedBy a b = Value.VNil) ∧
    (∀ a b : Value, viewAsNumber b = none → dividedBy a b = Value.VNil) ∧
    dividedBy (Value.VInt 20) (Value.VInt 7) = Value.VInt 2 ∧
    dividedBy (Value.VInt 20) (Value.VInt 0) = Value.VNil ∧
    dividedBy (Value.VInt 20) (Value.VStr "s") = Value.VNil := by
  refine ⟨?_, ?_, ?_, rfl, rfl, rfl⟩
  · intro a b x y ha hb
    simp only [dividedBy, ha, hb, numIsZero]
    split <;> simp_all
  · intro a b n hb hz
    cases ha : viewAsNumber a <;> simp [dividedBy, ha, hb, hz]
  · intro a b hb
    cases ha : viewAsNumber a <;> simp [dividedBy, ha, hb]

/-- Witness for C5 on numeric strings: `"20" / "7"` takes the Int-Int
truncated-division path. -/
theorem divided_by_witness_C5 :
    dividedBy (Value.VStr "20") (Value.VStr "7")
      = if (7 : Int) = 0 then Value.VNil else Value.VInt (Int.tdiv 20 7) :=
  divided_by_C5.1 (Value.VStr "20") (Value.VStr "7") 20 7 rfl rfl

/-- A value satisfying `isEmptyStr` is the empty string. -/
theorem isEmptyStr_eq (x : Value) (h : isEmptyStr x = true) : x = Value.VStr "" := by
  cases x with
  | VStr s => rw [(String.isEmpty_iff s).mp h]
  | VNil => exact Bool.noConfusion h
  | VBool b => exact Bool.noConfusion h
  | VInt n => exact Bool.noConfusion h
  | VFloat q => exact Bool.noConfusion h
  | VTime t => exact Bool.noConfusion h
  | VDate d => exact Bool.noConfusion h
  | VArr l => exact Bool.noConfusion h
  | VMap m => exact Bool.noConfusion h

/-- The empty-string fallback of `at_least`/`at_most` returns the empty
string whenever either argument is the empty string. -/
theorem emptyStr_fallback (x y : Value) (h : x = Value.VStr "" ∨ y = Value.VStr "") :
    (if isEmptyStr x then x else if isEmptyStr y then y else Value.VNil)
      = Value.VStr "" := by
  by_cases hx : isEmptyStr x = true
  · rw [if_pos hx, isEmptyStr_eq x hx]
  · rcases h with rfl | rfl
    · exact absurd (show isEmptyStr (Value.VStr "") = true from rfl) hx
    · rw [if_neg hx, if_pos (show isEmptyStr (Value.VStr "") = true from rfl)]

/-- Claim C6: when both inputs of `at_least`/`at_most` view as numbers the
result is the numeric max/min, a Float when either viewed number is a
float and an Int otherwise; when one input is the empty string the filter
returns that empty string unchanged. -/
theorem at_least_at_most_C6 :
    (∀ x y : Value, ∀ m n : Int,
      viewAsNumber x = some (.int m) → viewAsNumber y = some (.int n) →
      atLeast x y = Value.VInt (max m n) ∧ atMost x y = Value.VInt (min m n)) ∧
    (∀ x y : Value, ∀ a b : Num,
      viewAsNumber x = some a → viewAsNumber y = some b →
      (numIsFloat a || numIsFloat b) = true →
      atLeast x y = Value.VFloat (max (numToQ a) (numToQ b)) ∧
      atMost x y = Value.VFloat (min (numToQ a) (numToQ b))) ∧
    (∀ x y : Value, x = Value.VStr "" ∨ y = Value.VStr "" →
      atLeast x y = Value.VStr "" ∧ atMost x y = Value.VStr "") := by
  refine ⟨?_, ?_, ?_⟩
  · intro x y m n hx hy
    exact ⟨by simp [atLeast, hx, hy, maxNum], by simp [atMost, hx, hy, minNum]⟩
  · intro x y a b hx hy hf
    match a, b with
    | .int m, .int n => simp [numIsFloat] at hf
    | .int m, .float q =>
      exact ⟨by simp [atLeast, hx, hy, maxNum], by simp [atMost, hx, hy, minNum]⟩
    | .float q, .int n =>
      exact ⟨by simp [atLeast, hx, hy, maxNum], by simp [atMost, hx, hy, minNum]⟩
    | .float q, .float r =>
      exact ⟨by simp [atLeast, hx, hy, maxNum], by simp [atMost, hx, hy, minNum]⟩
  · intro x y h
    have hne : ¬(∃ a b, viewAsNumber x = some a ∧ viewAsNumber y = some b) := by
      rintro ⟨a, b, ha, hb⟩
      rcases h with rfl | rfl
      · rw [show viewAsNumber (Value.VStr "") = none from rfl] at ha
        exact Option.noConfusion ha
      · rw [show viewAsNumber (Value.VStr "") = none from rfl] at hb
        exact Option.noConfusion hb
    constructor
    · rw [atLeast]
      cases hx : viewAsNumber x with
      | none => exact emptyStr_fallback x y h
      | some a =>
        cases hy : viewAsNumber y with
        | none => exact emptyStr_fallback x y h
        | some b => exact absurd ⟨a, b, hx, hy⟩ hne
    · rw [atMost]
      cases hx : viewAsNumber x with
      | none => exact emptyStr_fallback x y h
      | some a =>
        cases hy : viewAsNumber y with
        | none => exact emptyStr_fallback x y h
        | some b => exact absurd ⟨a, b, hx, hy⟩ hne

/-- Witness for C6 on a numeric string against an Int. -/
theorem at_least_at_most_witness_C6 :
    atLeast (Value.VStr "10") (Value.VInt 20) = Value.VInt (max 10 20) ∧
    atMost (Value.VStr "10") (Value.VInt 20) = Value.VInt (min 10 20) :=
  at_least_at_most_C6.1 (Value.VStr "10") (Value.VInt 20) 10 20 rfl rfl

/-- Appending cannot erase a nonempty left part. -/
theorem append_ne_left (s t : String) (h : s ≠ "") : s ++ t ≠ "" := by
  intro e
  have hd := congrArg String.data e
  rw [String.data_append] at hd
  exact h (String.ext (List.append_eq_nil.mp hd).1)

/-- A natural number's decimal representation is never the empty string. -/
theorem natRepr_ne_empty (n : Nat) : natRepr n ≠ "" := by
  rw [natRepr]
  split
  · decide
  · rename_i h
    intro e
    have hd : (natToDigitsAux (n + 1) n) = [] := congrArg String.data e
    rw [natToDigitsAux] at hd
    simp [h] at hd

/-- An integer's decimal representation is never the empty string. -/
theorem intRepr_ne_empty (i : Int) : intRepr i ≠ "" := by
  rw [intRepr]
  split
  · exact append_ne_left _ _ (by decide)
  · exact natRepr_ne_empty _

/-- A float's canonical representation is never the empty string. -/
theorem floatRepr_ne_empty (q : ℚ) : floatRepr q ≠ "" := by
  have hnn : ∀ r : ℚ, floatReprNN r ≠ "" := by
    intro r
    rw [floatReprNN]
    split
    · exact intRepr_ne_empty _
    · split
      · exact append_ne_left _ _ (append_ne_left _ _ (natRepr_ne_empty _))
      · exact append_ne_left _ _ (append_ne_left _ _ (intRepr_ne_empty _))
  rw [floatRepr]
  split
  · exact append_ne_left _ _ (by decide)
  · exact hnn q

/-- Claim C7: the hash filters return the empty string — not the digest of
the empty string — on an input that stringifies to the empty string; the
hmac filters additionally return the empty string on an empty key or a
boolean key, while string, integer and float keys are stringified
canonically and produce the digest of the message under that key. -/
theorem hash_hmac_C7 :
    (∀ digest : String → String, hashFilter digest (Value.VStr "") = Value.VStr "") ∧
    (∀ mac : String → String → String, ∀ k : Value,
      hmacFilter mac (Value.VStr "") k = Value.VStr "") ∧
    (∀ mac : String → String → String, ∀ v : Value,
      hmacFilter mac v (Value.VStr "") = Value.VStr "") ∧
    (∀ mac : String → String → String, ∀ v : Value, ∀ b : Bool,
      hmacFilter mac v (Value.VBool b) = Value.VStr "") ∧
    (∀ mac : String → String → String, ∀ m k : String, m ≠ "" → k ≠ "" →
      hmacFilter mac (Value.VStr m) (Value.VStr k) = Value.VStr (mac m k)) ∧
    (∀ mac : String → String → String, ∀ m : String, ∀ n : Int, m ≠ "" →
      hmacFilter mac (Value.VStr m) (Value.VInt n) = Value.VStr (mac m (intRepr n))) ∧
    (∀ mac : String → String → String, ∀ m : String, ∀ q : ℚ, m ≠ "" →
      hmacFilter mac (Value.VStr m) (Value.VFloat q) = Value.VStr (mac m (floatRepr q))) := by
  have hfalse : ∀ s : String, s ≠ "" → s.isEmpty = false := by
    intro s hs
    rw [Bool.eq_false_iff]
    intro hb
    exact hs ((String.isEmpty_iff s).mp hb)
  refine ⟨fun digest => rfl, ?_, ?_, ?_, ?_, ?_, ?_⟩
  · intro mac k
    cases hk : keyRepr k <;>
      simp [hmacFilter, hk, hashStr, show ("" : String).isEmpty = true from rfl]
  · intro mac v
    simp [hmacFilter, keyRepr, show ("" : String).isEmpty = true from rfl]
  · intro mac v b
    simp [hmacFilter, keyRepr]
  · intro mac m k hm hk
    simp [hmacFilter, keyRepr, hashStr, hfalse m hm, hfalse k hk]
  · intro mac m n hm
    simp [hmacFilter, keyRepr, hashStr, hfalse m hm, hfalse _ (intRepr_ne_empty n)]
  · intro mac m q hm
    simp [hmacFilter, keyRepr, hashStr, hfalse m hm, hfalse _ (floatRepr_ne_empty q)]

/-- Witness for C7: a nonempty message with a nonempty string key produces
the MAC of message and key. -/
theorem hash_hmac_witness_C7 :
    hmacFilter (fun m k => m ++ ":" ++ k) (Value.VStr "msg") (Value.VStr "key")
      = Value.VStr ((fun m k => m ++ ":" ++ k) "msg" "key") :=
  hash_hmac_C7.2.2.2.2.1 (fun m k => m ++ ":" ++ k) "msg" "key" (by decide) (by decide)

/-- Claim C8: the `date` filter yields the empty string — and no error,
the filter being total — on every input that is neither a Time, nor a
Date, nor a string that parses as a date/time, including `Nil` from a
missing binding. -/
theorem date_filter_C8 :
    (∀ p : String → Option Int, ∀ ft fd : Int → String,
      dateFilter p ft fd Value.VNil = "") ∧
    (∀ p : String → Option Int, ∀ ft fd : Int → String, ∀ s : String,
      p s = none → dateFilter p ft fd (Value.VStr s) = "") ∧
    (∀ p : String → Option Int, ∀ ft fd : Int → String, ∀ b : Bool,
      dateFilter p ft fd (Value.VBool b) = "") ∧
    (∀ p : String → Option Int, ∀ ft fd : Int → String, ∀ n : Int,
      dateFilter p ft fd (Value.VInt n) = "") ∧
    (∀ p : String → Option Int, ∀ ft fd : Int → String, ∀ q : ℚ,
      dateFilter p ft fd (Value.VFloat q) = "") ∧
    (∀ p : String → Option Int, ∀ ft fd : Int → String, ∀ l : List Value,
      dateFilter p ft fd (Value.VArr l) = "") ∧
    (∀ p : String → Option Int, ∀ ft fd : Int → String, ∀ m : List (String × Value),
      dateFilter p ft fd (Value.VMap m) = "") := by
  refine ⟨fun p ft fd => rfl, ?_, fun p ft fd b => rfl, fun p ft fd n => rfl,
    fun p ft fd q => rfl, fun p ft fd l => rfl, fun p ft fd m => rfl⟩
  intro p ft fd s h
  simp [dateFilter, h]

/-- Witness for C8 at a parse function that rejects every string. -/
theorem date_filter_witness_C8 :
    dateFilter (fun _ : String => (none : Option Int)) (fun _ => "T") (fun _ => "D")
      (Value.VStr "not a date") = "" :=
  date_filter_C8.2.1 (fun _ => none) (fun _ => "T") (fun _ => "D") "not a date" rfl

/-- Claim C9: applying the `reverse` filter twice to any array returns the
original array — reverse is an involution. -/
theorem reverse_involution_C9 (l : List Value) :
    reverseFilter (reverseFilter (Value.VArr l)) = Value.VArr l := by
  simp [reverseFilter]

end Liquid
